import Mathlib

/-!
Verification of the single-turn orchestration core of `src/main.py`
(`MCPClient.process_query`, the prompt construction in
`MCPClient.connect_to_server`, and the module-level prompt templates).

Python strings are modelled as lists of Unicode code points (`List Nat`);
this accommodates values such as lone surrogates that `json.loads` can
produce from `\uXXXX` escapes and that Lean's `Char` cannot represent.
External collaborators (the completion endpoint and the MCP tool session)
are parameters of the model: the endpoint is a function from the call
index to the returned text, the session is a function from a tool name
and arguments to either a result text or an error.
-/

/-- Code points of a Lean string literal, used to write down the Python
string constants of the source. -/
def pystr (s : String) : List Nat := s.data.map Char.toNat

/-- `str.lower()` restricted to ASCII: Python's full Unicode case folding
only differs on non-ASCII code points, which none of the string constants
of the source contain. -/
def asciiLower (s : List Nat) : List Nat :=
  s.map (fun c => if 65 ≤ c ∧ c ≤ 90 then c + 32 else c)

/-- `str.strip("\n")`: remove leading and trailing newline characters. -/
def stripNl (s : List Nat) : List Nat :=
  ((s.dropWhile (fun c => c == 10)).reverse.dropWhile (fun c => c == 10)).reverse

/-- Index of the leftmost occurrence of `pat` in `s`, as found by
`re.search` for the literal patterns of the source (none of which contain
regex metacharacters). -/
def findSub (pat : List Nat) : List Nat → Option Nat
  | [] => if pat = [] then some 0 else none
  | c :: t => if pat.isPrefixOf (c :: t) then some 0 else (findSub pat t).map (· + 1)

/-- `TOOL_SYS_PROMPT` of `src/main.py`. -/
def TOOL_SYS_PROMPT : List Nat :=
  pystr "\nYou are a helpful assistant, and you prefer to response to the user with \nthe tools providing by himself.\nIf the user provide the result, you should answer the user directly.\n"

/-- `TOOL_PROMPT` of `src/main.py`. -/
def TOOL_PROMPT : List Nat :=
  pystr "\n## Available Tools:\n\n\x7btools\x7d\n## Task:\n\n\x7bquery\x7d\n\n## Output Format:\nIf you decide to answer the user with a tool, you should return the \n`tool_name` and the `tool_args` in JSON format as following:\n```json\n\x7b\n    \"tool_name\": \"tool_name\",\n    \"tool_args\": \x7b\n        \"arg1\": value1,\n        \"arg2\": value2,\n        ...\n    \x7d\n\x7d\n```\n"

/-- `RESULT_PROMPT` of `src/main.py`. -/
def RESULT_PROMPT : List Nat :=
  pystr "\nThe result `\x7bresults\x7d` is obtain by tools you proposed to solve the \x7bquery\x7d.\nPlease check the result and answer me according to the result directly without using tools.\n"

/-- Fuelled worker for `pyReplace`; each step consumes at least one
character of the haystack, so fuel equal to the haystack length never
runs out (the bare-fuel arm is unreachable, see `pyReplaceF_stable`). -/
def pyReplaceF (pat rep : List Nat) : Nat → List Nat → List Nat
  | _, [] => []
  | fuel, c :: t =>
    match fuel with
    | 0 => c :: t
    | fuel + 1 =>
      if pat.isPrefixOf (c :: t) then rep ++ pyReplaceF pat rep fuel ((c :: t).drop pat.length)
      else c :: pyReplaceF pat rep fuel t

/-- Python `s.replace(pat, rep)`: replace every non-overlapping occurrence
of `pat` left to right; the inserted replacement text is not rescanned.
The source only calls it with the non-empty patterns, but the empty-pattern
behaviour of Python (insert `rep` before every character and at the end)
is reproduced for faithfulness. -/
def pyReplace (pat rep s : List Nat) : List Nat :=
  if pat = [] then rep ++ s.flatMap (fun c => c :: rep)
  else pyReplaceF pat rep s.length s

theorem pat_length_pos (pat : List Nat) (hpat : pat ≠ []) : 1 ≤ pat.length := by
  cases pat with
  | nil => exact absurd rfl hpat
  | cons a b => simp

theorem pyReplaceF_stable (pat rep : List Nat) (hpat : pat ≠ []) :
    ∀ f₁ f₂ s, s.length ≤ f₁ → s.length ≤ f₂ →
      pyReplaceF pat rep f₁ s = pyReplaceF pat rep f₂ s := by
  intro f₁
  induction f₁ using Nat.strong_induction_on with
  | _ f₁ ih =>
    intro f₂ s h1 h2
    match s, f₁, f₂ with
    | [], _, _ => simp only [pyReplaceF]
    | c :: t, g₁ + 1, g₂ + 1 =>
      have hlen := pat_length_pos pat hpat
      simp only [List.length_cons] at h1 h2
      show (if pat.isPrefixOf (c :: t) = true
            then rep ++ pyReplaceF pat rep g₁ ((c :: t).drop pat.length)
            else c :: pyReplaceF pat rep g₁ t) =
           (if pat.isPrefixOf (c :: t) = true
            then rep ++ pyReplaceF pat rep g₂ ((c :: t).drop pat.length)
            else c :: pyReplaceF pat rep g₂ t)
      by_cases hp : pat.isPrefixOf (c :: t) = true
      · rw [if_pos hp, if_pos hp]
        have hd : ((c :: t).drop pat.length).length ≤ g₁ := by
          simp only [List.length_drop, List.length_cons]; omega
        have hd2 : ((c :: t).drop pat.length).length ≤ g₂ := by
          simp only [List.length_drop, List.length_cons]; omega
        rw [ih g₁ (by omega) g₂ _ hd hd2]
      · rw [if_neg hp, if_neg hp]
        rw [ih g₁ (by omega) g₂ t (by omega) (by omega)]

theorem pyReplace_nil (pat rep : List Nat) (hpat : pat ≠ []) :
    pyReplace pat rep [] = [] := by
  simp [pyReplace, hpat, pyReplaceF]

theorem pyReplace_pos (pat rep : List Nat) (hpat : pat ≠ []) (c : Nat) (t : List Nat)
    (hp : pat.isPrefixOf (c :: t) = true) :
    pyReplace pat rep (c :: t) = rep ++ pyReplace pat rep ((c :: t).drop pat.length) := by
  have hlen := pat_length_pos pat hpat
  unfold pyReplace
  simp only [if_neg hpat]
  show (if pat.isPrefixOf (c :: t) = true
        then rep ++ pyReplaceF pat rep t.length ((c :: t).drop pat.length)
        else c :: pyReplaceF pat rep t.length t) = _
  rw [if_pos hp]
  congr 1
  exact pyReplaceF_stable pat rep hpat t.length _ _
    (by simp only [List.length_drop, List.length_cons]; omega) (le_refl _)

theorem pyReplace_neg (pat rep : List Nat) (hpat : pat ≠ []) (c : Nat) (t : List Nat)
    (hp : ¬ pat.isPrefixOf (c :: t) = true) :
    pyReplace pat rep (c :: t) = c :: pyReplace pat rep t := by
  unfold pyReplace
  simp only [if_neg hpat]
  show (if pat.isPrefixOf (c :: t) = true
        then rep ++ pyReplaceF pat rep t.length ((c :: t).drop pat.length)
        else c :: pyReplaceF pat rep t.length t) = _
  rw [if_neg hp]

theorem pyReplace_contains_rep_aux (pat rep : List Nat) (hpat : pat ≠ []) :
    ∀ n (s : List Nat), s.length ≤ n → pat <:+: s →
      ∃ a b, pyReplace pat rep s = a ++ rep ++ b := by
  intro n
  induction n with
  | zero =>
    intro s hs hinf
    have hnil : s = [] := List.length_eq_zero.mp (Nat.le_zero.mp hs)
    subst hnil
    exact absurd (List.sublist_nil.mp hinf.sublist) hpat
  | succ n ih =>
    intro s hs hinf
    match s with
    | [] =>
      exact absurd (List.sublist_nil.mp hinf.sublist) hpat
    | c :: t =>
      by_cases hp : pat.isPrefixOf (c :: t)
      · exact ⟨[], pyReplace pat rep ((c :: t).drop pat.length), by
          simpa using pyReplace_pos pat rep hpat c t hp⟩
      · have htail : pat <:+: t := by
          rcases hinf with ⟨u, v, huv⟩
          match u with
          | [] =>
            exfalso
            apply hp
            rw [List.isPrefixOf_iff_prefix]
            exact ⟨v, by simpa using huv⟩
          | d :: u' =>
            refine ⟨u', v, ?_⟩
            have := huv
            simp only [List.cons_append] at this
            exact (List.cons.injEq _ _ _ _).mp this |>.2
        have ht : t.length ≤ n := by
          simp only [List.length_cons] at hs; omega
        rcases ih t ht htail with ⟨a, b, hab⟩
        exact ⟨c :: a, b, by rw [pyReplace_neg pat rep hpat c t hp, hab]; simp⟩

/-- If the pattern occurs in the haystack, the replacement text occurs in
the result of `pyReplace`. -/
theorem pyReplace_contains_rep (pat rep : List Nat) (hpat : pat ≠ []) (s : List Nat)
    (h : pat <:+: s) : ∃ a b, pyReplace pat rep s = a ++ rep ++ b :=
  pyReplace_contains_rep_aux pat rep hpat s.length s (le_refl _) h

theorem findSub_some_bound (pat : List Nat) (hpat : pat ≠ []) :
    ∀ s i, findSub pat s = some i → i + pat.length ≤ s.length := by
  intro s
  induction s with
  | nil =>
    intro i h
    simp only [findSub, if_neg hpat] at h
    exact Option.noConfusion h
  | cons c t ih =>
    intro i h
    replace h : (if pat.isPrefixOf (c :: t) = true then some 0
        else (findSub pat t).map (· + 1)) = some i := h
    by_cases hp : pat.isPrefixOf (c :: t) = true
    · rw [if_pos hp] at h
      cases h
      have := (List.isPrefixOf_iff_prefix.mp hp).length_le
      simpa using this
    · rw [if_neg hp] at h
      match hfs : findSub pat t with
      | none => rw [hfs] at h; simp at h
      | some i0 =>
        rw [hfs] at h
        simp only [Option.map_some'] at h
        cases h
        have := ih i0 hfs
        simp only [List.length_cons]
        omega

theorem findSub_eq_none_iff (pat : List Nat) (hpat : pat ≠ []) :
    ∀ s, findSub pat s = none ↔ ¬ pat <:+: s := by
  intro s
  induction s with
  | nil =>
    show (if pat = [] then some 0 else none) = none ↔ _
    rw [if_neg hpat]
    simp only [true_iff]
    intro h
    exact hpat (List.sublist_nil.mp h.sublist)
  | cons c t ih =>
    show (if pat.isPrefixOf (c :: t) = true then some 0 else (findSub pat t).map (· + 1)) = none ↔ _
    by_cases hp : pat.isPrefixOf (c :: t) = true
    · rw [if_pos hp]
      constructor
      · intro h
        exact Option.noConfusion h
      · intro h
        exact absurd (List.isPrefixOf_iff_prefix.mp hp).isInfix h
    · rw [if_neg hp]
      rw [List.infix_cons_iff]
      constructor
      · intro h hcon
        rcases hcon with hpre | hinf
        · exact hp (List.isPrefixOf_iff_prefix.mpr hpre)
        · rw [Option.map_eq_none'] at h
          exact (ih.mp h) hinf
      · intro h
        rw [Option.map_eq_none', ih]
        intro hinf
        exact h (Or.inr hinf)

/-!
## JSON values and `json.loads`

`json.loads` is modelled by a fuelled recursive-descent parser for the
RFC 8259 grammar in strict mode, as the Python `json` module implements
it: escape sequences (including `\uXXXX`) are decoded, raw control
characters inside strings are rejected, numbers are validated against the
JSON number grammar (their lexeme is kept verbatim — the orchestrator
never does arithmetic on them), and trailing garbage after the value is
an error.  The `NaN`/`Infinity` extension of the Python module is
case-sensitive and therefore unreachable here: every string reaching the
parser in `process_query` has been lower-cased first.  Two deliberate
simplifications that no claim depends on: surrogate pairs from `\u`
escapes are kept as two code points rather than combined, and duplicate
object keys are kept in order rather than collapsed last-wins (lookup
compensates by taking the last match, as a Python dict built from such a
payload would).
-/

inductive Json where
  | null
  | bool (b : Bool)
  | num (lexeme : List Nat)
  | str (s : List Nat)
  | arr (elems : List Json)
  | obj (members : List (List Nat × Json))

def isWsChar (c : Nat) : Bool := c == 32 || c == 9 || c == 10 || c == 13

def skipWs : List Nat → List Nat
  | c :: t => if isWsChar c then skipWs t else c :: t
  | [] => []

def isDigitChar (c : Nat) : Bool := Nat.ble 48 c && Nat.ble c 57

def hexVal (c : Nat) : Option Nat :=
  if 48 ≤ c ∧ c ≤ 57 then some (c - 48)
  else if 97 ≤ c ∧ c ≤ 102 then some (c - 97 + 10)
  else if 65 ≤ c ∧ c ≤ 70 then some (c - 65 + 10)
  else none

/-- Single-character escapes `\" \\ \/ \b \f \n \r \t`. -/
def escChar (e : Nat) : Option Nat :=
  if e = 34 then some 34 else if e = 92 then some 92 else if e = 47 then some 47
  else if e = 98 then some 8 else if e = 102 then some 12 else if e = 110 then some 10
  else if e = 114 then some 13 else if e = 116 then some 9 else none

/-- Body of a JSON string after the opening quote: returns the decoded
content and the input remaining after the closing quote.  A closing quote
ends the string; a backslash starts an escape sequence (`\uXXXX` with four
hex digits, or a single-character escape); a raw control character is
rejected (strict mode); any other character is taken verbatim. -/
def parseStringBody : List Nat → Option (List Nat × List Nat)
  | [] => none
  | c :: rest =>
    if c = 34 then some ([], rest)
    else if c = 92 then
      match rest with
      | 117 :: h1 :: h2 :: h3 :: h4 :: rest2 =>
        match hexVal h1, hexVal h2, hexVal h3, hexVal h4 with
        | some a, some b, some c2, some d =>
          (parseStringBody rest2).map (fun p => ((((a * 16 + b) * 16 + c2) * 16 + d) :: p.1, p.2))
        | _, _, _, _ => none
      | e :: rest2 =>
        match escChar e with
        | some c2 => (parseStringBody rest2).map (fun p => (c2 :: p.1, p.2))
        | none => none
      | [] => none
    else if c < 32 then none
    else (parseStringBody rest).map (fun p => (c :: p.1, p.2))

def takeDigits : List Nat → (List Nat × List Nat)
  | c :: t =>
    if isDigitChar c then
      let p := takeDigits t
      (c :: p.1, p.2)
    else ([], c :: t)
  | [] => ([], [])

/-- Integer part of a JSON number: `0`, or a nonzero digit followed by
digits (so that `01` is rejected, as Python rejects it). -/
def parseIntDigits : List Nat → Option (List Nat × List Nat)
  | c :: t =>
    if c = 48 then some ([48], t)
    else if Nat.ble 49 c && Nat.ble c 57 then
      some (c :: (takeDigits t).1, (takeDigits t).2)
    else none
  | [] => none

/-- Optional fraction part: absent, or `.` followed by one or more digits. -/
def parseFracPart : List Nat → Option (List Nat × List Nat)
  | c :: t =>
    if c = 46 then
      if (takeDigits t).1 = [] then none
      else some (46 :: (takeDigits t).1, (takeDigits t).2)
    else some ([], c :: t)
  | [] => some ([], [])

/-- Optional exponent part: absent, or `e`/`E`, optional sign, digits. -/
def parseExpPart : List Nat → Option (List Nat × List Nat)
  | c :: t =>
    if c = 101 ∨ c = 69 then
      match t with
      | sgn :: t2 =>
        if sgn = 43 ∨ sgn = 45 then
          if (takeDigits t2).1 = [] then none
          else some (c :: sgn :: (takeDigits t2).1, (takeDigits t2).2)
        else
          if (takeDigits t).1 = [] then none
          else some (c :: (takeDigits t).1, (takeDigits t).2)
      | [] => none
    else some ([], c :: t)
  | [] => some ([], [])

def parseNumAfterSign (s : List Nat) : Option (List Nat × List Nat) :=
  match parseIntDigits s with
  | none => none
  | some (ip, r1) =>
    match parseFracPart r1 with
    | none => none
    | some (fp, r2) =>
      match parseExpPart r2 with
      | none => none
      | some (ep, r3) => some (ip ++ fp ++ ep, r3)

def parseNumber : List Nat → Option (List Nat × List Nat)
  | c :: t =>
    if c = 45 then (parseNumAfterSign t).map (fun p => (45 :: p.1, p.2))
    else parseNumAfterSign (c :: t)
  | [] => parseNumAfterSign []

mutual

def parseValue : Nat → List Nat → Option (Json × List Nat)
  | 0, _ => none
  | fuel + 1, s =>
    match s with
    | 34 :: t => (parseStringBody t).map (fun p => (Json.str p.1, p.2))
    | 123 :: t =>
      match skipWs t with
      | 125 :: r => some (Json.obj [], r)
      | s2 => (parseMembers fuel s2).map (fun p => (Json.obj p.1, p.2))
    | 91 :: t =>
      match skipWs t with
      | 93 :: r => some (Json.arr [], r)
      | s2 => (parseElems fuel s2).map (fun p => (Json.arr p.1, p.2))
    | 116 :: 114 :: 117 :: 101 :: t => some (Json.bool true, t)
    | 102 :: 97 :: 108 :: 115 :: 101 :: t => some (Json.bool false, t)
    | 110 :: 117 :: 108 :: 108 :: t => some (Json.null, t)
    | s => (parseNumber s).map (fun p => (Json.num p.1, p.2))

def parseElems : Nat → List Nat → Option (List Json × List Nat)
  | 0, _ => none
  | fuel + 1, s =>
    match parseValue fuel s with
    | none => none
    | some (v, r) =>
      match skipWs r with
      | 44 :: r2 => (parseElems fuel (skipWs r2)).map (fun p => (v :: p.1, p.2))
      | 93 :: r2 => some ([v], r2)
      | _ => none

def parseMembers : Nat → List Nat → Option (List (List Nat × Json) × List Nat)
  | 0, _ => none
  | fuel + 1, s =>
    match s with
    | 34 :: t =>
      match parseStringBody t with
      | none => none
      | some (k, r1) =>
        match skipWs r1 with
        | 58 :: r2 =>
          match parseValue fuel (skipWs r2) with
          | none => none
          | some (v, r3) =>
            match skipWs r3 with
            | 44 :: r4 => (parseMembers fuel (skipWs r4)).map (fun p => ((k, v) :: p.1, p.2))
            | 125 :: r4 => some ([(k, v)], r4)
            | _ => none
        | _ => none
    | _ => none

end

/-- `json.loads`: parse one JSON value, allowing surrounding whitespace
and rejecting trailing garbage.  The fuel bound is generous: the parser
consumes at least one character per three fuel units spent. -/
def jsonLoads (s : List Nat) : Option Json :=
  match parseValue (3 * s.length + 3) (skipWs s) with
  | none => none
  | some (v, rest) => if skipWs rest = [] then some v else none

/-!
## The tool-call extraction loop

Models the `while "```json" in content` loop of `process_query`
(src/main.py lines 135-142).  The two failure modes of the Python code
are represented explicitly: `noClosingFence` is the `AttributeError`
raised by `re.search(r"```", ...).span()` when the search returns `None`,
and `jsonError` is the `json.JSONDecodeError` raised by `json.loads`.
Either exception aborts the turn; tool calls accumulated before it are
discarded with the local list.  The loop is fuelled: each iteration
consumes at least the seven characters of the opening fence marker, so
fuel `content.length + 1` never runs out (`extractLoop_stable`).
-/

inductive ExtractErr where
  | noClosingFence
  | jsonError
deriving DecidableEq

def fenceOpen : List Nat := pystr "```json"

def fenceClose : List Nat := pystr "```"

def extractLoop : Nat → List Nat → Except ExtractErr (List Json)
  | 0, _ => .error .noClosingFence
  | fuel + 1, content =>
    match findSub fenceOpen content with
    | none => .ok []
    | some i =>
      match findSub fenceClose (content.drop (i + 7)) with
      | none => .error .noClosingFence
      | some j =>
        match jsonLoads (stripNl ((content.drop (i + 7)).take j)) with
        | none => .error .jsonError
        | some v =>
          match extractLoop fuel (content.drop (i + 7 + j)) with
          | .error e => .error e
          | .ok tl => .ok (v :: tl)

def extract_tool_calls (content : List Nat) : Except ExtractErr (List Json) :=
  extractLoop (content.length + 1) content

theorem fenceOpen_length : fenceOpen.length = 7 := rfl

theorem fenceClose_length : fenceClose.length = 3 := rfl

theorem fenceOpen_ne_nil : fenceOpen ≠ [] := by
  intro h
  exact absurd (congrArg List.length h) (by rw [fenceOpen_length]; simp)

theorem fenceClose_ne_nil : fenceClose ≠ [] := by
  intro h
  exact absurd (congrArg List.length h) (by rw [fenceClose_length]; simp)

theorem extractLoop_succ (fuel : Nat) (c : List Nat) :
    extractLoop (fuel + 1) c =
      match findSub fenceOpen c with
      | none => Except.ok []
      | some i =>
        match findSub fenceClose (c.drop (i + 7)) with
        | none => Except.error ExtractErr.noClosingFence
        | some j =>
          match jsonLoads (stripNl ((c.drop (i + 7)).take j)) with
          | none => Except.error ExtractErr.jsonError
          | some v =>
            match extractLoop fuel (c.drop (i + 7 + j)) with
            | .error e => Except.error e
            | .ok tl => Except.ok (v :: tl) := rfl

theorem extractLoop_stable :
    ∀ f₁ f₂ c, c.length < f₁ → c.length < f₂ → extractLoop f₁ c = extractLoop f₂ c := by
  intro f₁
  induction f₁ using Nat.strong_induction_on with
  | _ f₁ ih =>
    intro f₂ c h1 h2
    match f₁, f₂ with
    | g₁ + 1, g₂ + 1 =>
      rw [extractLoop_succ, extractLoop_succ]
      cases hfo : findSub fenceOpen c with
      | none => rfl
      | some i =>
        simp only
        cases hfc : findSub fenceClose (c.drop (i + 7)) with
        | none => rfl
        | some j =>
          simp only
          cases hj : jsonLoads (stripNl ((c.drop (i + 7)).take j)) with
          | none => rfl
          | some v =>
            simp only
            have hib : i + 7 ≤ c.length := by
              have := findSub_some_bound fenceOpen fenceOpen_ne_nil c i hfo
              rw [fenceOpen_length] at this
              omega
            have hjb : j + 3 ≤ c.length - (i + 7) := by
              have := findSub_some_bound fenceClose fenceClose_ne_nil (c.drop (i + 7)) j hfc
              rw [fenceClose_length, List.length_drop] at this
              omega
            have hdl : (c.drop (i + 7 + j)).length < g₁ := by
              rw [List.length_drop]
              omega
            have hdl2 : (c.drop (i + 7 + j)).length < g₂ := by
              rw [List.length_drop]
              omega
            rw [ih g₁ (by omega) g₂ _ hdl hdl2]

theorem extract_none {c : List Nat} (h : findSub fenceOpen c = none) :
    extract_tool_calls c = .ok [] := by
  show extractLoop (c.length + 1) c = .ok []
  rw [extractLoop_succ, h]

theorem extract_noclose {c : List Nat} {i : Nat}
    (hi : findSub fenceOpen c = some i)
    (hc : findSub fenceClose (c.drop (i + 7)) = none) :
    extract_tool_calls c = .error .noClosingFence := by
  show extractLoop (c.length + 1) c = _
  rw [extractLoop_succ]
  simp only [hi, hc]

theorem extract_badjson {c : List Nat} {i j : Nat}
    (hi : findSub fenceOpen c = some i)
    (hc : findSub fenceClose (c.drop (i + 7)) = some j)
    (hj : jsonLoads (stripNl ((c.drop (i + 7)).take j)) = none) :
    extract_tool_calls c = .error .jsonError := by
  show extractLoop (c.length + 1) c = _
  rw [extractLoop_succ]
  simp only [hi, hc, hj]

theorem extract_step {c : List Nat} {i j : Nat} {v : Json}
    (hi : findSub fenceOpen c = some i)
    (hc : findSub fenceClose (c.drop (i + 7)) = some j)
    (hj : jsonLoads (stripNl ((c.drop (i + 7)).take j)) = some v) :
    extract_tool_calls c = (extract_tool_calls (c.drop (i + 7 + j))).map (v :: ·) := by
  have hib : i + 7 ≤ c.length := by
    have := findSub_some_bound fenceOpen fenceOpen_ne_nil c i hi
    rw [fenceOpen_length] at this
    omega
  have hjb : j + 3 ≤ c.length - (i + 7) := by
    have := findSub_some_bound fenceClose fenceClose_ne_nil (c.drop (i + 7)) j hc
    rw [fenceClose_length, List.length_drop] at this
    omega
  show extractLoop (c.length + 1) c = _
  rw [extractLoop_succ]
  simp only [hi, hc, hj]
  have hstab : extractLoop c.length (c.drop (i + 7 + j))
      = extractLoop ((c.drop (i + 7 + j)).length + 1) (c.drop (i + 7 + j)) := by
    apply extractLoop_stable
    · rw [List.length_drop]; omega
    · omega
  rw [hstab]
  show _ = Except.map (v :: ·) (extractLoop ((c.drop (i + 7 + j)).length + 1) (c.drop (i + 7 + j)))
  cases extractLoop ((c.drop (i + 7 + j)).length + 1) (c.drop (i + 7 + j)) with
  | error e => rfl
  | ok tl => rfl

/-- Inversion for a successful extraction: either no opening fence marker
remains, or the first block was located, parsed, and the rest extracted. -/
theorem extract_ok_inversion {c : List Nat} {calls : List Json}
    (h : extract_tool_calls c = .ok calls) :
    (findSub fenceOpen c = none ∧ calls = []) ∨
    ∃ i j v tl, findSub fenceOpen c = some i ∧
      findSub fenceClose (c.drop (i + 7)) = some j ∧
      jsonLoads (stripNl ((c.drop (i + 7)).take j)) = some v ∧
      extract_tool_calls (c.drop (i + 7 + j)) = .ok tl ∧
      calls = v :: tl := by
  cases hfo : findSub fenceOpen c with
  | none =>
    left
    rw [extract_none hfo] at h
    exact ⟨rfl, by cases h; rfl⟩
  | some i =>
    right
    cases hfc : findSub fenceClose (c.drop (i + 7)) with
    | none =>
      rw [extract_noclose hfo hfc] at h
      exact Except.noConfusion h
    | some j =>
      cases hj : jsonLoads (stripNl ((c.drop (i + 7)).take j)) with
      | none =>
        rw [extract_badjson hfo hfc hj] at h
        exact Except.noConfusion h
      | some v =>
        rw [extract_step hfo hfc hj] at h
        cases hrest : extract_tool_calls (c.drop (i + 7 + j)) with
        | error e =>
          rw [hrest] at h
          exact Except.noConfusion h
        | ok tl =>
          rw [hrest] at h
          refine ⟨i, j, v, tl, rfl, hfc, hj, hrest, ?_⟩
          cases h
          rfl

/-!
## Tool dispatch and the turn controller

`process_query` (src/main.py lines 105-168) is modelled with its two
external collaborators as parameters: `completion` maps the index of the
`chat.completions.create` call (0 or 1) to the text of
`response.choices[0].message.content`, and `call_tool` maps a tool name
and argument value to `result.content[0].text` or to the error the MCP
session raised.  The outcome records the final result (or the exception
that propagates out of `process_query`), the message list passed to each
completion call, and the `(name, args)` trace of `session.call_tool`
invocations in the order they were awaited.
-/

/-- A chat message: a Python dict from string keys to string values,
kept in insertion order. -/
abbrev Msg := List (List Nat × List Nat)

/-- Python dict lookup on a message. -/
def msgGet (m : Msg) (k : List Nat) : Option (List Nat) :=
  match m with
  | [] => none
  | (k0, v0) :: t =>
    match msgGet t k with
    | some r => some r
    | none => if k0 = k then some v0 else none

/-- Last-wins association lookup, matching the Python dict a duplicate-keyed
JSON object would produce. -/
def lookupLast (kvs : List (List Nat × Json)) (k : List Nat) : Option Json :=
  match kvs with
  | [] => none
  | (k0, v0) :: t =>
    match lookupLast t k with
    | some r => some r
    | none => if k0 = k then some v0 else none

/-- Python `tool_call["key"]`: only a JSON object supports item access with
a string key; a missing key raises `KeyError`, a non-object raises
`TypeError` (both modelled as `none`). -/
def jsonGetItem (v : Json) (k : List Nat) : Option Json :=
  match v with
  | .obj kvs => lookupLast kvs k
  | _ => none

inductive DispatchErr where
  | keyError
  | toolError (msg : List Nat)

/-- The dispatch loop of `process_query` (src/main.py lines 148-153):
invoke each extracted call in order, awaiting each result before issuing
the next, accumulating `{tool_name: result.content[0].text}` entries;
any exception (missing key, or an error from the session) propagates and
abandons the accumulated partial results.  Returns the outcome together
with the trace of `session.call_tool` invocations actually issued. -/
def dispatchCalls (call_tool : Json → Json → Except (List Nat) (List Nat)) :
    List Json → Except DispatchErr (List (Json × List Nat)) × List (Json × Json)
  | [] => (.ok [], [])
  | c :: rest =>
    match jsonGetItem c (pystr "tool_name") with
    | none => (.error .keyError, [])
    | some name =>
      match jsonGetItem c (pystr "tool_args") with
      | none => (.error .keyError, [])
      | some args =>
        match call_tool name args with
        | .error m => (.error (.toolError m), [(name, args)])
        | .ok text =>
          let p := dispatchCalls call_tool rest
          match p.1 with
          | .error e => (.error e, (name, args) :: p.2)
          | .ok rs => (.ok ((name, text) :: rs), (name, args) :: p.2)

def hexDigit (n : Nat) : Nat := if n < 10 then 48 + n else 87 + n

/-- `json.dumps` escaping of one code point (default `ensure_ascii=True`). -/
def dumpEscape (c : Nat) : List Nat :=
  if c = 34 then [92, 34]
  else if c = 92 then [92, 92]
  else if c < 32 ∨ 126 < c then
    [92, 117, hexDigit (c / 4096 % 16), hexDigit (c / 256 % 16),
     hexDigit (c / 16 % 16), hexDigit (c % 16)]
  else [c]

def dumpStrLit (s : List Nat) : List Nat := [34] ++ s.flatMap dumpEscape ++ [34]

/-- Rendering of a `{tool_name: text}` dict key by `json.dumps`: the
orchestrator only ever builds string keys out of well-formed payloads;
Python would stringify an int/bool/null key and raise on the rest, which
no claim exercises. -/
def dumpKey : Json → List Nat
  | .str s => dumpStrLit s
  | .num lexeme => dumpStrLit lexeme
  | .bool true => dumpStrLit (pystr "true")
  | .bool false => dumpStrLit (pystr "false")
  | .null => dumpStrLit (pystr "null")
  | _ => dumpStrLit []

def joinComma : List (List Nat) → List Nat
  | [] => []
  | [x] => x
  | x :: y :: t => x ++ [44, 32] ++ joinComma (y :: t)

/-- `json.dumps(tool_results)` for the list of one-entry dicts built by
the dispatch loop. -/
def jsonDumpsResults (rs : List (Json × List Nat)) : List Nat :=
  [91] ++ joinComma (rs.map (fun r => [123] ++ dumpKey r.1 ++ [58, 32] ++ dumpStrLit r.2 ++ [125])) ++ [93]

inductive TurnErr where
  | extractErr (e : ExtractErr)
  | dispatchErr (e : DispatchErr)

structure TurnOutcome where
  result : Except TurnErr (List Nat)
  conversations : List (List Msg)
  trace : List (Json × Json)

/-- `MCPClient.process_query` (src/main.py lines 105-168). -/
def process_query (completion : Nat → List Nat)
    (call_tool : Json → Json → Except (List Nat) (List Nat))
    (tools_prompt query : List Nat) : TurnOutcome :=
  let messages0 : List Msg := [[(pystr "rolse", pystr "system"), (pystr "content", TOOL_SYS_PROMPT)]]
  let query_with_tools := pyReplace (pystr "\x7bquery\x7d") query tools_prompt
  let messages1 := messages0 ++ [[(pystr "role", pystr "user"), (pystr "content", query_with_tools)]]
  let content := asciiLower (completion 0)
  let messages2 := messages1 ++ [[(pystr "role", pystr "assistant"), (pystr "content", content)]]
  match extract_tool_calls content with
  | .error e => { result := .error (.extractErr e), conversations := [messages1], trace := [] }
  | .ok tool_calls =>
    match tool_calls with
    | [] => { result := .ok content, conversations := [messages1], trace := [] }
    | _ :: _ =>
      let d := dispatchCalls call_tool tool_calls
      match d.1 with
      | .error e => { result := .error (.dispatchErr e), conversations := [messages1], trace := d.2 }
      | .ok tool_results =>
        let results_str := jsonDumpsResults tool_results
        let result_prompt :=
          pyReplace (pystr "\x7bresults\x7d") results_str
            (pyReplace (pystr "\x7bquery\x7d") query RESULT_PROMPT)
        let messages3 := messages2 ++ [[(pystr "role", pystr "user"), (pystr "content", result_prompt)]]
        { result := .ok (completion 1), conversations := [messages1, messages3], trace := d.2 }

/-!
## The prompt builder

The tool-catalog construction of `MCPClient.connect_to_server`
(src/main.py lines 99-103).
-/

structure ToolDescriptor where
  name : List Nat
  description : List Nat
  inputSchema : List Nat

/-- The `tools_list` accumulation loop. -/
def tools_list_of (tools : List ToolDescriptor) : List Nat :=
  (tools.map (fun tool =>
    pystr "tool_name: " ++ tool.name ++ pystr "\ndescription: " ++ tool.description ++
    pystr "\ninput_schema: " ++ tool.inputSchema ++ pystr "\n\n")).flatten

/-- `self.tools_prompt = TOOL_PROMPT.replace("{tools}", tools_list)`. -/
def connect_tools_prompt (tools : List ToolDescriptor) : List Nat :=
  pyReplace (pystr "\x7btools\x7d") (tools_list_of tools) TOOL_PROMPT

/-- The user-facing prompt a turn for `query` actually sends, given the
connected descriptors: the catalog prompt with `\x7bquery\x7d` substituted
(src/main.py line 115). -/
def rendered_user_prompt (tools : List ToolDescriptor) (query : List Nat) : List Nat :=
  pyReplace (pystr "\x7bquery\x7d") query (connect_tools_prompt tools)

/-!
## Case provenance of parsed values

Infrastructure for the lower-casing claim: if the text handed to
`json.loads` contains no ASCII uppercase letter and no backslash (so no
escape sequence), then every string inside the parsed value — object keys,
string values, number lexemes — is free of ASCII uppercase letters.  The
backslash side condition is essential: a `\uXXXX` escape can denote an
uppercase code point that survives the prior `.lower()`.
-/

def noUpperStr (s : List Nat) : Bool := s.all (fun c => !(decide (65 ≤ c ∧ c ≤ 90)))

mutual

def Json.noUpper : Json → Bool
  | .null => true
  | .bool _ => true
  | .num lexeme => noUpperStr lexeme
  | .str s => noUpperStr s
  | .arr elems => noUpperList elems
  | .obj members => noUpperMembers members

def noUpperList : List Json → Bool
  | [] => true
  | v :: vs => Json.noUpper v && noUpperList vs

def noUpperMembers : List (List Nat × Json) → Bool
  | [] => true
  | kv :: kvs => noUpperStr kv.1 && Json.noUpper kv.2 && noUpperMembers kvs

end

/-- The character-level side condition: no ASCII uppercase, no backslash. -/
def strNice (s : List Nat) : Prop := ∀ c ∈ s, ¬(65 ≤ c ∧ c ≤ 90) ∧ c ≠ 92

theorem strNice_of_subset {s t : List Nat} (hsub : ∀ c ∈ t, c ∈ s) (h : strNice s) :
    strNice t := fun c hc => h c (hsub c hc)

theorem strNice_tail {c : Nat} {t : List Nat} (h : strNice (c :: t)) : strNice t :=
  strNice_of_subset (fun _ hx => List.mem_cons_of_mem c hx) h

theorem noUpperStr_of_nice {s l : List Nat} (h : strNice s) (hsub : ∀ c ∈ l, c ∈ s) :
    noUpperStr l = true := by
  rw [noUpperStr, List.all_eq_true]
  intro c hc
  simp only [Bool.not_eq_true', decide_eq_false_iff_not]
  exact (h c (hsub c hc)).1

theorem skipWs_subset : ∀ s : List Nat, ∀ c ∈ skipWs s, c ∈ s := by
  intro s
  induction s with
  | nil => intro c hc; exact hc
  | cons a t ih =>
    intro c hc
    by_cases hw : isWsChar a = true
    · have : skipWs (a :: t) = skipWs t := by
        show (if isWsChar a then skipWs t else a :: t) = skipWs t
        rw [if_pos hw]
      rw [this] at hc
      exact List.mem_cons_of_mem a (ih c hc)
    · have : skipWs (a :: t) = a :: t := by
        show (if isWsChar a then skipWs t else a :: t) = a :: t
        rw [if_neg hw]
      rw [this] at hc
      exact hc

theorem stripNl_subset (s : List Nat) : ∀ c ∈ stripNl s, c ∈ s := by
  intro c hc
  rw [stripNl, List.mem_reverse] at hc
  have h1 := (List.dropWhile_sublist (l := (s.dropWhile (fun c => c == 10)).reverse)
    (p := fun c => c == 10)).mem hc
  rw [List.mem_reverse] at h1
  exact (List.dropWhile_sublist (l := s) (p := fun c => c == 10)).mem h1

theorem parseStringBody_quote (t : List Nat) : parseStringBody (34 :: t) = some ([], t) := by
  rw [parseStringBody.eq_def]
  rfl

theorem parseStringBody_ctrl (c : Nat) (t : List Nat) (h34 : ¬ c = 34) (h92 : ¬ c = 92)
    (hlt : c < 32) : parseStringBody (c :: t) = none := by
  rw [parseStringBody.eq_def]
  split
  next x heq => exact absurd heq (by simp)
  next x c2 t2 heq =>
    injection heq with e1 e2
    subst e1
    subst e2
    rw [if_neg h34, if_neg h92, if_pos hlt]

theorem parseStringBody_plain (c : Nat) (t : List Nat) (h34 : ¬ c = 34) (h92 : ¬ c = 92)
    (hlt : ¬ c < 32) :
    parseStringBody (c :: t) = (parseStringBody t).map (fun p => (c :: p.1, p.2)) := by
  rw [parseStringBody.eq_def]
  split
  next x heq => exact absurd heq (by simp)
  next x c2 t2 heq =>
    injection heq with e1 e2
    subst e1
    subst e2
    rw [if_neg h34, if_neg h92, if_neg hlt]

theorem parseStringBody_nice : ∀ s : List Nat, strNice s → ∀ content rest,
    parseStringBody s = some (content, rest) →
    noUpperStr content = true ∧ strNice rest := by
  intro s
  induction s with
  | nil =>
    intro _ content rest h
    exact Option.noConfusion h
  | cons c t ih =>
    intro hnice content rest h
    by_cases h34 : c = 34
    · subst h34
      rw [parseStringBody_quote] at h
      cases h
      exact ⟨rfl, strNice_tail hnice⟩
    · by_cases h92 : c = 92
      · exact absurd h92 (hnice c (List.mem_cons_self c _)).2
      · by_cases hlt : c < 32
        · rw [parseStringBody_ctrl c t h34 h92 hlt] at h
          exact Option.noConfusion h
        · rw [parseStringBody_plain c t h34 h92 hlt] at h
          rw [Option.map_eq_some'] at h
          rcases h with ⟨⟨content0, rest1⟩, hparse, heq⟩
          cases heq
          have hrec := ih (strNice_tail hnice) content0 rest1 hparse
          refine ⟨?_, hrec.2⟩
          rw [noUpperStr, List.all_cons]
          simp only [Bool.and_eq_true]
          refine ⟨?_, hrec.1⟩
          simp only [Bool.not_eq_true', decide_eq_false_iff_not]
          exact (hnice c (List.mem_cons_self c _)).1


theorem takeDigits_append : ∀ s : List Nat, (takeDigits s).1 ++ (takeDigits s).2 = s := by
  intro s
  induction s with
  | nil => rfl
  | cons c t ih =>
    by_cases hd : isDigitChar c = true
    · show ((if isDigitChar c = true then ((c :: (takeDigits t).1, (takeDigits t).2) : List Nat × List Nat)
        else ([], c :: t)).1 ++ (if isDigitChar c = true then ((c :: (takeDigits t).1, (takeDigits t).2) : List Nat × List Nat)
        else ([], c :: t)).2) = c :: t
      rw [if_pos hd]
      show c :: ((takeDigits t).1 ++ (takeDigits t).2) = c :: t
      rw [ih]
    · show ((if isDigitChar c = true then ((c :: (takeDigits t).1, (takeDigits t).2) : List Nat × List Nat)
        else ([], c :: t)).1 ++ (if isDigitChar c = true then ((c :: (takeDigits t).1, (takeDigits t).2) : List Nat × List Nat)
        else ([], c :: t)).2) = c :: t
      rw [if_neg hd]
      rfl

theorem parseIntDigits_append : ∀ (s l r : List Nat), parseIntDigits s = some (l, r) → l ++ r = s := by
  intro s l r h
  match s with
  | [] => exact Option.noConfusion h
  | c :: t =>
    replace h : (if c = 48 then some ([48], t)
      else if Nat.ble 49 c && Nat.ble c 57 then
        some (c :: (takeDigits t).1, (takeDigits t).2)
      else none) = some (l, r) := h
    by_cases h48 : c = 48
    · rw [if_pos h48] at h
      cases h
      rw [h48]
      rfl
    · rw [if_neg h48] at h
      by_cases hdig : (Nat.ble 49 c && Nat.ble c 57) = true
      · rw [if_pos hdig] at h
        cases h
        show c :: ((takeDigits t).1 ++ (takeDigits t).2) = c :: t
        rw [takeDigits_append]
      · rw [if_neg hdig] at h
        exact Option.noConfusion h

theorem parseFracPart_append : ∀ (s l r : List Nat), parseFracPart s = some (l, r) → l ++ r = s := by
  intro s l r h
  match s with
  | [] =>
    cases h
    rfl
  | c :: t =>
    replace h : (if c = 46 then
        if (takeDigits t).1 = [] then none
        else some (46 :: (takeDigits t).1, (takeDigits t).2)
      else some ([], c :: t)) = some (l, r) := h
    by_cases h46 : c = 46
    · rw [if_pos h46] at h
      by_cases hnil : (takeDigits t).1 = []
      · rw [if_pos hnil] at h
        exact Option.noConfusion h
      · rw [if_neg hnil] at h
        cases h
        rw [h46]
        show 46 :: ((takeDigits t).1 ++ (takeDigits t).2) = 46 :: t
        rw [takeDigits_append]
    · rw [if_neg h46] at h
      cases h
      rfl

theorem parseExpPart_append : ∀ (s l r : List Nat), parseExpPart s = some (l, r) → l ++ r = s := by
  intro s l r h
  match s with
  | [] =>
    cases h
    rfl
  | c :: t =>
    replace h : (if c = 101 ∨ c = 69 then
        (match t with
        | sgn :: t2 =>
          if sgn = 43 ∨ sgn = 45 then
            if (takeDigits t2).1 = [] then none
            else some (c :: sgn :: (takeDigits t2).1, (takeDigits t2).2)
          else
            if (takeDigits t).1 = [] then none
            else some (c :: (takeDigits t).1, (takeDigits t).2)
        | [] => none)
      else some ([], c :: t)) = some (l, r) := h
    by_cases he : c = 101 ∨ c = 69
    · rw [if_pos he] at h
      match t with
      | [] => exact Option.noConfusion h
      | sgn :: t2 =>
        replace h : (if sgn = 43 ∨ sgn = 45 then
            if (takeDigits t2).1 = [] then none
            else some (c :: sgn :: (takeDigits t2).1, (takeDigits t2).2)
          else
            if (takeDigits (sgn :: t2)).1 = [] then none
            else some (c :: (takeDigits (sgn :: t2)).1, (takeDigits (sgn :: t2)).2)) = some (l, r) := h
        by_cases hs : sgn = 43 ∨ sgn = 45
        · rw [if_pos hs] at h
          by_cases hnil : (takeDigits t2).1 = []
          · rw [if_pos hnil] at h
            exact Option.noConfusion h
          · rw [if_neg hnil] at h
            cases h
            show c :: sgn :: ((takeDigits t2).1 ++ (takeDigits t2).2) = c :: sgn :: t2
            rw [takeDigits_append]
        · rw [if_neg hs] at h
          by_cases hnil : (takeDigits (sgn :: t2)).1 = []
          · rw [if_pos hnil] at h
            exact Option.noConfusion h
          · rw [if_neg hnil] at h
            cases h
            show c :: ((takeDigits (sgn :: t2)).1 ++ (takeDigits (sgn :: t2)).2) = c :: sgn :: t2
            rw [takeDigits_append]
    · rw [if_neg he] at h
      cases h
      rfl

theorem parseNumAfterSign_append (s l r : List Nat) (h : parseNumAfterSign s = some (l, r)) :
    l ++ r = s := by
  rw [parseNumAfterSign] at h
  cases hip : parseIntDigits s with
  | none => rw [hip] at h; exact Option.noConfusion h
  | some p1 =>
    obtain ⟨ip, r1⟩ := p1
    rw [hip] at h
    replace h : (match parseFracPart r1 with
      | none => none
      | some (fp, r2) =>
        match parseExpPart r2 with
        | none => none
        | some (ep, r3) => some (ip ++ fp ++ ep, r3)) = some (l, r) := h
    cases hfp : parseFracPart r1 with
    | none => rw [hfp] at h; exact Option.noConfusion h
    | some p2 =>
      obtain ⟨fp, r2⟩ := p2
      rw [hfp] at h
      replace h : (match parseExpPart r2 with
        | none => none
        | some (ep, r3) => some (ip ++ fp ++ ep, r3)) = some (l, r) := h
      cases hep : parseExpPart r2 with
      | none => rw [hep] at h; exact Option.noConfusion h
      | some p3 =>
        obtain ⟨ep, r3⟩ := p3
        rw [hep] at h
        replace h : some (ip ++ fp ++ ep, r3) = some (l, r) := h
        cases h
        have e1 := parseIntDigits_append s ip r1 hip
        have e2 := parseFracPart_append r1 fp r2 hfp
        have e3 := parseExpPart_append r2 ep r hep
        rw [← e1, ← e2, ← e3]
        simp [List.append_assoc]

theorem parseNumber_append (s l r : List Nat) (h : parseNumber s = some (l, r)) :
    l ++ r = s := by
  match s with
  | [] => exact parseNumAfterSign_append [] l r h
  | c :: t =>
    replace h : (if c = 45 then (parseNumAfterSign t).map (fun p => (45 :: p.1, p.2))
      else parseNumAfterSign (c :: t)) = some (l, r) := h
    by_cases h45 : c = 45
    · rw [if_pos h45] at h
      rw [Option.map_eq_some'] at h
      rcases h with ⟨⟨l0, r0⟩, hp, heq⟩
      cases heq
      rw [h45]
      show 45 :: (l0 ++ r0) = 45 :: t
      rw [parseNumAfterSign_append t l0 r0 hp]
    · rw [if_neg h45] at h
      exact parseNumAfterSign_append (c :: t) l r h

theorem strNice_skipWs {s : List Nat} (h : strNice s) : strNice (skipWs s) :=
  strNice_of_subset (skipWs_subset s) h

theorem parseNumber_nice {s lex rest : List Nat} (hnice : strNice s)
    (h : parseNumber s = some (lex, rest)) :
    noUpperStr lex = true ∧ strNice rest := by
  have happ := parseNumber_append s lex rest h
  constructor
  · exact noUpperStr_of_nice hnice (fun c hc => by rw [← happ]; exact List.mem_append_left _ hc)
  · exact strNice_of_subset (fun c hc => by rw [← happ]; exact List.mem_append_right _ hc) hnice

theorem parseValue_succ (fuel : Nat) (s : List Nat) :
    parseValue (fuel + 1) s =
      match s with
      | 34 :: t => (parseStringBody t).map (fun p => (Json.str p.1, p.2))
      | 123 :: t =>
        match skipWs t with
        | 125 :: r => some (Json.obj [], r)
        | s2 => (parseMembers fuel s2).map (fun p => (Json.obj p.1, p.2))
      | 91 :: t =>
        match skipWs t with
        | 93 :: r => some (Json.arr [], r)
        | s2 => (parseElems fuel s2).map (fun p => (Json.arr p.1, p.2))
      | 116 :: 114 :: 117 :: 101 :: t => some (Json.bool true, t)
      | 102 :: 97 :: 108 :: 115 :: 101 :: t => some (Json.bool false, t)
      | 110 :: 117 :: 108 :: 108 :: t => some (Json.null, t)
      | s => (parseNumber s).map (fun p => (Json.num p.1, p.2)) := rfl

theorem parseElems_succ (fuel : Nat) (s : List Nat) :
    parseElems (fuel + 1) s =
      match parseValue fuel s with
      | none => none
      | some (v, r) =>
        match skipWs r with
        | 44 :: r2 => (parseElems fuel (skipWs r2)).map (fun p => (v :: p.1, p.2))
        | 93 :: r2 => some ([v], r2)
        | _ => none := rfl

theorem parseMembers_succ (fuel : Nat) (s : List Nat) :
    parseMembers (fuel + 1) s =
      match s with
      | 34 :: t =>
        match parseStringBody t with
        | none => none
        | some (k, r1) =>
          match skipWs r1 with
          | 58 :: r2 =>
            match parseValue fuel (skipWs r2) with
            | none => none
            | some (v, r3) =>
              match skipWs r3 with
              | 44 :: r4 => (parseMembers fuel (skipWs r4)).map (fun p => ((k, v) :: p.1, p.2))
              | 125 :: r4 => some ([(k, v)], r4)
              | _ => none
          | _ => none
      | _ => none := rfl

set_option maxHeartbeats 2000000 in
theorem parsers_nice : ∀ fuel : Nat,
    (∀ s v rest, strNice s → parseValue fuel s = some (v, rest) →
      v.noUpper = true ∧ strNice rest) ∧
    (∀ s vs rest, strNice s → parseElems fuel s = some (vs, rest) →
      noUpperList vs = true ∧ strNice rest) ∧
    (∀ s kvs rest, strNice s → parseMembers fuel s = some (kvs, rest) →
      noUpperMembers kvs = true ∧ strNice rest) := by
  intro fuel
  induction fuel with
  | zero =>
    refine ⟨?_, ?_, ?_⟩
    · intro s v rest _ h
      exact Option.noConfusion h
    · intro s vs rest _ h
      exact Option.noConfusion h
    · intro s kvs rest _ h
      exact Option.noConfusion h
  | succ fuel ih =>
    obtain ⟨ihv, ihe, ihm⟩ := ih
    refine ⟨?_, ?_, ?_⟩
    · -- parseValue
      intro s v rest hnice h
      rw [parseValue_succ] at h
      split at h
      · -- string
        next t =>
        rw [Option.map_eq_some'] at h
        rcases h with ⟨⟨content, rest1⟩, hp, heq⟩
        cases heq
        have := parseStringBody_nice t (strNice_tail hnice) content rest1 hp
        exact ⟨this.1, this.2⟩
      · -- object
        next t =>
        have hsw : strNice (skipWs t) := strNice_skipWs (strNice_tail hnice)
        split at h
        · next r heq =>
          cases h
          refine ⟨rfl, ?_⟩
          rw [heq] at hsw
          exact strNice_tail hsw
        · next s2 hne =>
          rw [Option.map_eq_some'] at h
          rcases h with ⟨⟨kvs, rest1⟩, hp, heq⟩
          cases heq
          have := ihm (skipWs t) kvs rest1 hsw hp
          exact ⟨this.1, this.2⟩
      · -- array
        next t =>
        have hsw : strNice (skipWs t) := strNice_skipWs (strNice_tail hnice)
        split at h
        · next r heq =>
          cases h
          refine ⟨rfl, ?_⟩
          rw [heq] at hsw
          exact strNice_tail hsw
        · next s2 hne =>
          rw [Option.map_eq_some'] at h
          rcases h with ⟨⟨vs, rest1⟩, hp, heq⟩
          cases heq
          have := ihe (skipWs t) vs rest1 hsw hp
          exact ⟨this.1, this.2⟩
      · -- true
        next t =>
        cases h
        exact ⟨rfl, strNice_tail (strNice_tail (strNice_tail (strNice_tail hnice)))⟩
      · -- false
        next t =>
        cases h
        exact ⟨rfl, strNice_tail (strNice_tail (strNice_tail (strNice_tail (strNice_tail hnice))))⟩
      · -- null
        next t =>
        cases h
        exact ⟨rfl, strNice_tail (strNice_tail (strNice_tail (strNice_tail hnice)))⟩
      · -- number
        rw [Option.map_eq_some'] at h
        rcases h with ⟨⟨lex, rest1⟩, hp, heq⟩
        cases heq
        have := parseNumber_nice hnice hp
        exact ⟨this.1, this.2⟩
    · -- parseElems
      intro s vs rest hnice h
      rw [parseElems_succ] at h
      cases hpv : parseValue fuel s with
      | none =>
        rw [hpv] at h
        exact Option.noConfusion h
      | some p =>
        obtain ⟨v, r⟩ := p
        rw [hpv] at h
        replace h : (match skipWs r with
          | 44 :: r2 => (parseElems fuel (skipWs r2)).map (fun p => (v :: p.1, p.2))
          | 93 :: r2 => some ([v], r2)
          | _ => none) = some (vs, rest) := h
        have hv := ihv s v r hnice hpv
        split at h
        · next r2 heq =>
          rw [Option.map_eq_some'] at h
          rcases h with ⟨⟨vs0, rest1⟩, hp, heqp⟩
          cases heqp
          have hr2 : strNice (skipWs r2) := by
            apply strNice_skipWs
            apply strNice_tail (c := 44)
            rw [← heq]
            exact strNice_skipWs hv.2
          have := ihe (skipWs r2) vs0 rest1 hr2 hp
          refine ⟨?_, this.2⟩
          show (v.noUpper && noUpperList vs0) = true
          rw [hv.1, this.1]
          rfl
        · next r2 heq =>
          cases h
          refine ⟨?_, ?_⟩
          · show (v.noUpper && true) = true
            rw [hv.1]
            rfl
          · apply strNice_tail (c := 93)
            rw [← heq]
            exact strNice_skipWs hv.2
        · exact Option.noConfusion h
    · -- parseMembers
      intro s kvs rest hnice h
      rw [parseMembers_succ] at h
      split at h
      · next t =>
        cases hps : parseStringBody t with
        | none =>
          rw [hps] at h
          exact Option.noConfusion h
        | some p =>
          obtain ⟨k, r1⟩ := p
          rw [hps] at h
          replace h : (match skipWs r1 with
            | 58 :: r2 =>
              match parseValue fuel (skipWs r2) with
              | none => none
              | some (v, r3) =>
                match skipWs r3 with
                | 44 :: r4 => (parseMembers fuel (skipWs r4)).map (fun p => ((k, v) :: p.1, p.2))
                | 125 :: r4 => some ([(k, v)], r4)
                | _ => none
            | _ => none) = some (kvs, rest) := h
          have hk := parseStringBody_nice t (strNice_tail hnice) k r1 hps
          split at h
          · next r2 heq =>
            have hr2 : strNice (skipWs r2) := by
              apply strNice_skipWs
              apply strNice_tail (c := 58)
              rw [← heq]
              exact strNice_skipWs hk.2
            cases hpv : parseValue fuel (skipWs r2) with
            | none =>
              rw [hpv] at h
              exact Option.noConfusion h
            | some p2 =>
              obtain ⟨v, r3⟩ := p2
              rw [hpv] at h
              replace h : (match skipWs r3 with
                | 44 :: r4 => (parseMembers fuel (skipWs r4)).map (fun p => ((k, v) :: p.1, p.2))
                | 125 :: r4 => some ([(k, v)], r4)
                | _ => none) = some (kvs, rest) := h
              have hv := ihv (skipWs r2) v r3 hr2 hpv
              split at h
              · next r4 heq2 =>
                rw [Option.map_eq_some'] at h
                rcases h with ⟨⟨kvs0, rest1⟩, hp, heqp⟩
                cases heqp
                have hr4 : strNice (skipWs r4) := by
                  apply strNice_skipWs
                  apply strNice_tail (c := 44)
                  rw [← heq2]
                  exact strNice_skipWs hv.2
                have := ihm (skipWs r4) kvs0 rest1 hr4 hp
                refine ⟨?_, this.2⟩
                show (noUpperStr k && v.noUpper && noUpperMembers kvs0) = true
                rw [hk.1, hv.1, this.1]
                rfl
              · next r4 heq2 =>
                cases h
                refine ⟨?_, ?_⟩
                · show (noUpperStr k && v.noUpper && true) = true
                  rw [hk.1, hv.1]
                  rfl
                · apply strNice_tail (c := 125)
                  rw [← heq2]
                  exact strNice_skipWs hv.2
              · exact Option.noConfusion h
          · exact Option.noConfusion h
      · exact Option.noConfusion h

/-- `json.loads` on uppercase-free, backslash-free input yields a value
free of ASCII uppercase everywhere. -/
theorem jsonLoads_nice {s : List Nat} {v : Json} (hnice : strNice s)
    (h : jsonLoads s = some v) : v.noUpper = true := by
  rw [jsonLoads] at h
  cases hpv : parseValue (3 * s.length + 3) (skipWs s) with
  | none =>
    rw [hpv] at h
    exact Option.noConfusion h
  | some p =>
    obtain ⟨v0, rest⟩ := p
    rw [hpv] at h
    replace h : (if skipWs rest = [] then some v0 else none) = some v := h
    have := (parsers_nice (3 * s.length + 3)).1 (skipWs s) v0 rest (strNice_skipWs hnice) hpv
    by_cases hre : skipWs rest = []
    · rw [if_pos hre] at h
      cases h
      exact this.1
    · rw [if_neg hre] at h
      exact Option.noConfusion h

theorem asciiLower_nice {s : List Nat} (h92 : ∀ c ∈ s, c ≠ 92) :
    strNice (asciiLower s) := by
  intro c hc
  rw [asciiLower, List.mem_map] at hc
  rcases hc with ⟨c0, hc0, heq⟩
  by_cases hup : 65 ≤ c0 ∧ c0 ≤ 90
  · rw [if_pos hup] at heq
    subst heq
    constructor
    · omega
    · omega
  · rw [if_neg hup] at heq
    subst heq
    exact ⟨hup, h92 c0 hc0⟩

theorem payload_subset (c : List Nat) (i j : Nat) :
    ∀ x ∈ stripNl ((c.drop (i + 7)).take j), x ∈ c := by
  intro x hx
  have h1 := stripNl_subset _ x hx
  have h2 := (List.take_sublist j (c.drop (i + 7))).mem h1
  exact (List.drop_sublist (i + 7) c).mem h2

theorem extract_ok_nice_aux :
    ∀ n (c : List Nat) (calls : List Json), c.length ≤ n → strNice c →
      extract_tool_calls c = .ok calls → ∀ v ∈ calls, v.noUpper = true := by
  intro n
  induction n with
  | zero =>
    intro c calls hn hnice h v hv
    have hc : c = [] := List.length_eq_zero.mp (Nat.le_zero.mp hn)
    subst hc
    rcases extract_ok_inversion h with ⟨_, hcalls⟩ | ⟨i, j, v0, tl, hi, _, _, _, _⟩
    · subst hcalls
      exact absurd hv (List.not_mem_nil v)
    · have := findSub_some_bound fenceOpen fenceOpen_ne_nil [] i hi
      rw [fenceOpen_length] at this
      simp at this
  | succ n ih =>
    intro c calls hn hnice h v hv
    rcases extract_ok_inversion h with ⟨_, hcalls⟩ | ⟨i, j, v0, tl, hi, hc, hj, hrest, hcalls⟩
    · subst hcalls
      exact absurd hv (List.not_mem_nil v)
    · subst hcalls
      have hib : i + 7 ≤ c.length := by
        have := findSub_some_bound fenceOpen fenceOpen_ne_nil c i hi
        rw [fenceOpen_length] at this
        omega
      rcases List.mem_cons.mp hv with hveq | hvtl
      · subst hveq
        exact jsonLoads_nice (strNice_of_subset (payload_subset c i j) hnice) hj
      · have hdn : (c.drop (i + 7 + j)).length ≤ n := by
          rw [List.length_drop]
          omega
        exact ih (c.drop (i + 7 + j)) tl hdn
          (strNice_of_subset (fun x hx => (List.drop_sublist (i + 7 + j) c).mem hx) hnice)
          hrest v hvtl

/-- All tool calls successfully extracted from uppercase-free,
backslash-free text are free of ASCII uppercase letters throughout. -/
theorem extract_ok_nice {c : List Nat} {calls : List Json} (hnice : strNice c)
    (h : extract_tool_calls c = .ok calls) : ∀ v ∈ calls, v.noUpper = true :=
  extract_ok_nice_aux c.length c calls (le_refl _) hnice h

/-!
## Block-structure predicates

Syntactic descriptions of how the extraction loop walks a text: at each
scan position either no opening fence marker remains, or the leftmost
opening fence is followed by a leftmost closing fence delimiting a
payload.  Each predicate mirrors one eventual outcome.
-/

/-- The scan eventually reaches an opening fence marker with no closing
fence after it, possibly after consuming well-formed blocks. -/
inductive UnclosedFence : List Nat → Prop where
  | here {t : List Nat} {i : Nat}
      (hOpen : findSub fenceOpen t = some i)
      (hClose : findSub fenceClose (t.drop (i + 7)) = none) : UnclosedFence t
  | later {t : List Nat} {i j : Nat} {v : Json}
      (hOpen : findSub fenceOpen t = some i)
      (hClose : findSub fenceClose (t.drop (i + 7)) = some j)
      (hParse : jsonLoads (stripNl ((t.drop (i + 7)).take j)) = some v)
      (hRest : UnclosedFence (t.drop (i + 7 + j))) : UnclosedFence t

/-- The scan eventually reaches a complete fenced block whose payload is
not valid JSON, possibly after consuming well-formed blocks. -/
inductive FirstMalformed : List Nat → Prop where
  | here {t : List Nat} {i j : Nat}
      (hOpen : findSub fenceOpen t = some i)
      (hClose : findSub fenceClose (t.drop (i + 7)) = some j)
      (hParse : jsonLoads (stripNl ((t.drop (i + 7)).take j)) = none) : FirstMalformed t
  | later {t : List Nat} {i j : Nat} {v : Json}
      (hOpen : findSub fenceOpen t = some i)
      (hClose : findSub fenceClose (t.drop (i + 7)) = some j)
      (hParse : jsonLoads (stripNl ((t.drop (i + 7)).take j)) = some v)
      (hRest : FirstMalformed (t.drop (i + 7 + j))) : FirstMalformed t

/-- The scan consumes well-formed blocks with the given payload values,
in textual order, until no opening fence marker remains. -/
inductive FencedBlocks : List Nat → List Json → Prop where
  | nil {t : List Nat} (h : findSub fenceOpen t = none) : FencedBlocks t []
  | cons {t : List Nat} {i j : Nat} {v : Json} {vs : List Json}
      (hOpen : findSub fenceOpen t = some i)
      (hClose : findSub fenceClose (t.drop (i + 7)) = some j)
      (hParse : jsonLoads (stripNl ((t.drop (i + 7)).take j)) = some v)
      (hRest : FencedBlocks (t.drop (i + 7 + j)) vs) : FencedBlocks t (v :: vs)

theorem unclosed_fence_error {t : List Nat} (h : UnclosedFence t) :
    extract_tool_calls t = .error .noClosingFence := by
  induction h with
  | here hOpen hClose => exact extract_noclose hOpen hClose
  | later hOpen hClose hParse hRest ih =>
    rw [extract_step hOpen hClose hParse, ih]
    rfl

theorem fenced_blocks_extract {t : List Nat} {vs : List Json} (h : FencedBlocks t vs) :
    extract_tool_calls t = .ok vs := by
  induction h with
  | nil h => exact extract_none h
  | cons hOpen hClose hParse hRest ih =>
    rw [extract_step hOpen hClose hParse, ih]
    rfl

/-- C1 (amended): on any text whose fence scan reaches an opening
```json marker with no closing fence after it, the extraction loop
terminates — but by raising the hard malformed-output error that the
failed closing-fence search produces (the `AttributeError` of
`re.search(...).span()` on `None`), discarding the calls found before
that point; it never loops forever. -/
theorem C1_unclosed_fence_terminates_with_error {t : List Nat} (h : UnclosedFence t) :
    extract_tool_calls t = .error .noClosingFence :=
  unclosed_fence_error h

/-- C1 witness: a concrete response text with an unterminated opening
fence, on which the extractor returns the hard error. -/
theorem C1_unclosed_fence_terminates_with_error_witness :
    extract_tool_calls (pystr "hello ```json trailing") = .error .noClosingFence :=
  C1_unclosed_fence_terminates_with_error (UnclosedFence.here (by rfl) (by rfl))

/-- C1 counterexample: the claim as stated — that on an unterminated
opening fence the extractor yields the tool calls found before that point
(here: none) — is false: the code raises instead of returning `.ok []`. -/
theorem C1_counterexample :
    extract_tool_calls (pystr "ok ```json\n\x7b\"tool_name\": \"add\"") =
      .error .noClosingFence ∧
    extract_tool_calls (pystr "ok ```json\n\x7b\"tool_name\": \"add\"") ≠ .ok [] := by
  have h : extract_tool_calls (pystr "ok ```json\n\x7b\"tool_name\": \"add\"") =
      .error .noClosingFence := rfl
  refine ⟨h, ?_⟩
  rw [h]
  intro hcon
  exact Except.noConfusion hcon

/-- C3: if the fence scan reaches a complete fenced block whose payload
is not valid JSON (possibly after well-formed blocks), extraction raises
the hard JSON-decode error for the whole turn: the malformed block is
never skipped and extraction never returns a call list. -/
theorem C3_malformed_block_hard_error {t : List Nat} (h : FirstMalformed t) :
    extract_tool_calls t = .error .jsonError := by
  induction h with
  | here hOpen hClose hParse => exact extract_badjson hOpen hClose hParse
  | later hOpen hClose hParse hRest ih =>
    rw [extract_step hOpen hClose hParse, ih]
    rfl

/-- C3 witness: a fenced block whose payload is not JSON aborts the
extraction with the decode error. -/
theorem C3_malformed_block_hard_error_witness :
    extract_tool_calls (pystr "x ```json\nnot json\n``` y") = .error .jsonError :=
  C3_malformed_block_hard_error (FirstMalformed.here (by rfl) (by rfl) (by rfl))

/-- C8: on text consisting of well-formed fenced blocks (two or more),
the extracted sequence has exactly one entry per block, in the blocks'
textual order of appearance. -/
theorem C8_blocks_in_textual_order {t : List Nat} {vs : List Json}
    (h : FencedBlocks t vs) (_htwo : 2 ≤ vs.length) :
    extract_tool_calls t = .ok vs :=
  fenced_blocks_extract h

/-- C8 witness: the two-block example of the specification, extracted in
textual order. -/
theorem C8_blocks_in_textual_order_witness :
    extract_tool_calls (pystr "```json\n\x7b\"tool_name\": \"add\", \"tool_args\": \x7b\"a\": 1, \"b\": 2\x7d\x7d\n``` and ```json\n\x7b\"tool_name\": \"sub\", \"tool_args\": \x7b\"a\": 5, \"b\": 3\x7d\x7d\n```") =
      .ok [Json.obj [(pystr "tool_name", Json.str (pystr "add")),
             (pystr "tool_args", Json.obj [(pystr "a", Json.num (pystr "1")),
               (pystr "b", Json.num (pystr "2"))])],
           Json.obj [(pystr "tool_name", Json.str (pystr "sub")),
             (pystr "tool_args", Json.obj [(pystr "a", Json.num (pystr "5")),
               (pystr "b", Json.num (pystr "3"))])]] :=
  C8_blocks_in_textual_order
    (FencedBlocks.cons (by rfl) (by rfl) (by rfl)
      (FencedBlocks.cons (by rfl) (by rfl) (by rfl)
        (FencedBlocks.nil (by rfl))))
    (by simp)

/-- `tool_call["tool_name"]` as a total function (only used under the
hypothesis that dispatch succeeded, where the lookup cannot miss). -/
def nameOf (c : Json) : Json := (jsonGetItem c (pystr "tool_name")).getD Json.null

def argsOf (c : Json) : Json := (jsonGetItem c (pystr "tool_args")).getD Json.null

/-- The text a successful invocation of call `c` yields. -/
def textOf (call_tool : Json → Json → Except (List Nat) (List Nat)) (c : Json) : List Nat :=
  match call_tool (nameOf c) (argsOf c) with
  | .ok text => text
  | .error _ => []

/-- C5: when the dispatch loop completes without error, the tools were
invoked one at a time in exactly the sequence order of the extracted
calls (the invocation trace equals the calls' name/argument pairs in
order), and the result sequence has the same length and order: entry `i`
is the `{tool_name: text}` pair produced by call `i`. -/
theorem C5_dispatch_sequential_ordered
    (call_tool : Json → Json → Except (List Nat) (List Nat)) :
    ∀ (calls : List Json) (results : List (Json × List Nat)) (trace : List (Json × Json)),
    dispatchCalls call_tool calls = (.ok results, trace) →
    results.length = calls.length ∧
    trace = calls.map (fun c => (nameOf c, argsOf c)) ∧
    results = calls.map (fun c => (nameOf c, textOf call_tool c)) := by
  intro calls
  induction calls with
  | nil =>
    intro results trace h
    replace h : ((.ok [], []) : Except DispatchErr (List (Json × List Nat)) × List (Json × Json))
        = (.ok results, trace) := h
    rw [Prod.mk.injEq] at h
    obtain ⟨h1, h2⟩ := h
    cases h1
    cases h2
    exact ⟨rfl, rfl, rfl⟩
  | cons c rest ih =>
    intro results trace h
    cases hname : jsonGetItem c (pystr "tool_name") with
    | none =>
      rw [dispatchCalls, hname] at h
      replace h : ((.error .keyError, []) : Except DispatchErr (List (Json × List Nat)) × List (Json × Json))
          = (.ok results, trace) := h
      rw [Prod.mk.injEq] at h
      exact Except.noConfusion h.1
    | some name =>
      rw [dispatchCalls, hname] at h
      cases hargs : jsonGetItem c (pystr "tool_args") with
      | none =>
        rw [hargs] at h
        replace h : ((.error .keyError, []) : Except DispatchErr (List (Json × List Nat)) × List (Json × Json))
            = (.ok results, trace) := h
        rw [Prod.mk.injEq] at h
        exact Except.noConfusion h.1
      | some args =>
        rw [hargs] at h
        replace h : (match call_tool name args with
          | .error m => ((.error (.toolError m), [(name, args)]) : Except DispatchErr (List (Json × List Nat)) × List (Json × Json))
          | .ok text =>
            match (dispatchCalls call_tool rest).1 with
            | .error e => (.error e, (name, args) :: (dispatchCalls call_tool rest).2)
            | .ok rs => (.ok ((name, text) :: rs), (name, args) :: (dispatchCalls call_tool rest).2)) = (.ok results, trace) := h
        cases hct : call_tool name args with
        | error m =>
          rw [hct] at h
          replace h : ((.error (.toolError m), [(name, args)]) : Except DispatchErr (List (Json × List Nat)) × List (Json × Json))
              = (.ok results, trace) := h
          rw [Prod.mk.injEq] at h
          exact Except.noConfusion h.1
        | ok text =>
          rw [hct] at h
          replace h : (match (dispatchCalls call_tool rest).1 with
            | .error e => ((.error e, (name, args) :: (dispatchCalls call_tool rest).2) : Except DispatchErr (List (Json × List Nat)) × List (Json × Json))
            | .ok rs => (.ok ((name, text) :: rs), (name, args) :: (dispatchCalls call_tool rest).2)) = (.ok results, trace) := h
          cases hd : (dispatchCalls call_tool rest).1 with
          | error e =>
            rw [hd] at h
            replace h : ((.error e, (name, args) :: (dispatchCalls call_tool rest).2) : Except DispatchErr (List (Json × List Nat)) × List (Json × Json))
                = (.ok results, trace) := h
            rw [Prod.mk.injEq] at h
            exact Except.noConfusion h.1
          | ok rs =>
            rw [hd] at h
            replace h : ((.ok ((name, text) :: rs), (name, args) :: (dispatchCalls call_tool rest).2) : Except DispatchErr (List (Json × List Nat)) × List (Json × Json))
                = (.ok results, trace) := h
            rw [Prod.mk.injEq] at h
            obtain ⟨h1, h2⟩ := h
            cases h1
            cases h2
            have hrec := ih rs (dispatchCalls call_tool rest).2 (by
              rw [← hd])
            have hnm : nameOf c = name := by rw [nameOf, hname]; rfl
            have hag : argsOf c = args := by rw [argsOf, hargs]; rfl
            have htx : textOf call_tool c = text := by
              rw [textOf, hnm, hag, hct]
            refine ⟨?_, ?_, ?_⟩
            · simp only [List.length_cons, hrec.1]
            · simp only [List.map, hnm, hag]
              rw [← hrec.2.1]
            · simp only [List.map, hnm, htx]
              rw [← hrec.2.2]

/-- C6: if the first failing call in the sequence is at position
`pre.length` (every call in `pre` succeeds, then invoking `bad`'s tool
raises), the dispatch loop propagates the error: no result list is
returned (the partial results are discarded with it), the calls after
`bad` are never dispatched, and the invocation trace is exactly the
successful prefix followed by the failing invocation. -/
theorem C6_dispatch_error_aborts
    (call_tool : Json → Json → Except (List Nat) (List Nat)) :
    ∀ (pre post : List Json) (bad : Json) (name args : Json) (m : List Nat),
    (∀ c ∈ pre, ∃ text, jsonGetItem c (pystr "tool_name") = some (nameOf c) ∧
      jsonGetItem c (pystr "tool_args") = some (argsOf c) ∧
      call_tool (nameOf c) (argsOf c) = .ok text) →
    jsonGetItem bad (pystr "tool_name") = some name →
    jsonGetItem bad (pystr "tool_args") = some args →
    call_tool name args = .error m →
    dispatchCalls call_tool (pre ++ bad :: post) =
      (.error (.toolError m), pre.map (fun c => (nameOf c, argsOf c)) ++ [(name, args)]) := by
  intro pre
  induction pre with
  | nil =>
    intro post bad name args m hpre hname hargs hct
    show dispatchCalls call_tool (bad :: post) = _
    rw [dispatchCalls, hname, hargs]
    show (match call_tool name args with
      | .error m => ((.error (.toolError m), [(name, args)]) : Except DispatchErr (List (Json × List Nat)) × List (Json × Json))
      | .ok text =>
        match (dispatchCalls call_tool post).1 with
        | .error e => (.error e, (name, args) :: (dispatchCalls call_tool post).2)
        | .ok rs => (.ok ((name, text) :: rs), (name, args) :: (dispatchCalls call_tool post).2)) = _
    rw [hct]
    rfl
  | cons c rest ih =>
    intro post bad name args m hpre hname hargs hct
    obtain ⟨text, hcn, hca, hcok⟩ := hpre c (List.mem_cons_self c rest)
    show dispatchCalls call_tool (c :: (rest ++ bad :: post)) = _
    rw [dispatchCalls, hcn, hca]
    show (match call_tool (nameOf c) (argsOf c) with
      | .error m2 => ((.error (.toolError m2), [(nameOf c, argsOf c)]) : Except DispatchErr (List (Json × List Nat)) × List (Json × Json))
      | .ok text2 =>
        match (dispatchCalls call_tool (rest ++ bad :: post)).1 with
        | .error e => (.error e, (nameOf c, argsOf c) :: (dispatchCalls call_tool (rest ++ bad :: post)).2)
        | .ok rs => (.ok ((nameOf c, text2) :: rs), (nameOf c, argsOf c) :: (dispatchCalls call_tool (rest ++ bad :: post)).2)) = _
    rw [hcok]
    have hrec := ih post bad name args m
      (fun c2 hc2 => hpre c2 (List.mem_cons_of_mem c hc2)) hname hargs hct
    rw [hrec]
    rfl

/-- C5 witness: the add/sub example of the specification dispatched in
order against a session that answers `"4"` to `add` and `"2"` to any
other tool. -/
theorem C5_dispatch_sequential_ordered_witness :
    ((dispatchCalls
      (fun n _ => match n with
        | Json.str s => if s = pystr "add" then .ok (pystr "4") else .ok (pystr "2")
        | _ => .error (pystr "bad name"))
      [Json.obj [(pystr "tool_name", Json.str (pystr "add")), (pystr "tool_args", Json.obj [])],
       Json.obj [(pystr "tool_name", Json.str (pystr "sub")), (pystr "tool_args", Json.obj [])]]).2.length = 2) ∧
    ((dispatchCalls
      (fun n _ => match n with
        | Json.str s => if s = pystr "add" then .ok (pystr "4") else .ok (pystr "2")
        | _ => .error (pystr "bad name"))
      [Json.obj [(pystr "tool_name", Json.str (pystr "add")), (pystr "tool_args", Json.obj [])],
       Json.obj [(pystr "tool_name", Json.str (pystr "sub")), (pystr "tool_args", Json.obj [])]]).1 =
      .ok [(Json.str (pystr "add"), pystr "4"), (Json.str (pystr "sub"), pystr "2")]) := by
  have h := C5_dispatch_sequential_ordered
    (fun n _ => match n with
      | Json.str s => if s = pystr "add" then .ok (pystr "4") else .ok (pystr "2")
      | _ => .error (pystr "bad name"))
    [Json.obj [(pystr "tool_name", Json.str (pystr "add")), (pystr "tool_args", Json.obj [])],
     Json.obj [(pystr "tool_name", Json.str (pystr "sub")), (pystr "tool_args", Json.obj [])]]
    [(Json.str (pystr "add"), pystr "4"), (Json.str (pystr "sub"), pystr "2")]
    [(Json.str (pystr "add"), Json.obj []), (Json.str (pystr "sub"), Json.obj [])]
    (by rfl)
  constructor
  · rw [show (dispatchCalls
      (fun n _ => match n with
        | Json.str s => if s = pystr "add" then .ok (pystr "4") else .ok (pystr "2")
        | _ => .error (pystr "bad name"))
      [Json.obj [(pystr "tool_name", Json.str (pystr "add")), (pystr "tool_args", Json.obj [])],
       Json.obj [(pystr "tool_name", Json.str (pystr "sub")), (pystr "tool_args", Json.obj [])]]).2 =
      [(Json.str (pystr "add"), Json.obj []), (Json.str (pystr "sub"), Json.obj [])] from rfl]
    rfl
  · rfl

/-- C6 witness: the specification's failure scenario — a successful `add`
call followed by a call to the unknown tool `divide` — aborts dispatch
with the session's error, returns no partial results, and never reaches
the third call. -/
theorem C6_dispatch_error_aborts_witness :
    dispatchCalls
      (fun n _ => match n with
        | Json.str s => if s = pystr "add" then .ok (pystr "4")
            else .error (pystr "unknown tool")
        | _ => .error (pystr "bad name"))
      [Json.obj [(pystr "tool_name", Json.str (pystr "add")), (pystr "tool_args", Json.obj [])],
       Json.obj [(pystr "tool_name", Json.str (pystr "divide")), (pystr "tool_args", Json.obj [])],
       Json.obj [(pystr "tool_name", Json.str (pystr "add")), (pystr "tool_args", Json.obj [])]] =
      (.error (.toolError (pystr "unknown tool")),
       [(Json.str (pystr "add"), Json.obj []), (Json.str (pystr "divide"), Json.obj [])]) := by
  have h := C6_dispatch_error_aborts
    (fun n _ => match n with
      | Json.str s => if s = pystr "add" then .ok (pystr "4")
          else .error (pystr "unknown tool")
      | _ => .error (pystr "bad name"))
    [Json.obj [(pystr "tool_name", Json.str (pystr "add")), (pystr "tool_args", Json.obj [])]]
    [Json.obj [(pystr "tool_name", Json.str (pystr "add")), (pystr "tool_args", Json.obj [])]]
    (Json.obj [(pystr "tool_name", Json.str (pystr "divide")), (pystr "tool_args", Json.obj [])])
    (Json.str (pystr "divide")) (Json.obj []) (pystr "unknown tool")
    (by
      intro c hc
      rw [List.mem_singleton] at hc
      subst hc
      exact ⟨pystr "4", by rfl, by rfl, by rfl⟩)
    (by rfl) (by rfl) (by rfl)
  exact h

/-- The first conversation `process_query` sends: the (mis-keyed) system
message and the user message holding the tool prompt with the query
substituted. -/
def firstConversation (tools_prompt query : List Nat) : List Msg :=
  [[(pystr "rolse", pystr "system"), (pystr "content", TOOL_SYS_PROMPT)],
   [(pystr "role", pystr "user"),
    (pystr "content", pyReplace (pystr "\x7bquery\x7d") query tools_prompt)]]

theorem pq_branch_extract_error {completion : Nat → List Nat}
    {call_tool : Json → Json → Except (List Nat) (List Nat)}
    {tools_prompt query : List Nat} {e : ExtractErr}
    (hex : extract_tool_calls (asciiLower (completion 0)) = .error e) :
    process_query completion call_tool tools_prompt query =
      { result := .error (.extractErr e),
        conversations := [firstConversation tools_prompt query],
        trace := [] } := by
  simp only [process_query, hex]
  rfl

theorem pq_branch_no_calls {completion : Nat → List Nat}
    {call_tool : Json → Json → Except (List Nat) (List Nat)}
    {tools_prompt query : List Nat}
    (hex : extract_tool_calls (asciiLower (completion 0)) = .ok []) :
    process_query completion call_tool tools_prompt query =
      { result := .ok (asciiLower (completion 0)),
        conversations := [firstConversation tools_prompt query],
        trace := [] } := by
  simp only [process_query, hex]
  rfl

theorem pq_branch_dispatch_error {completion : Nat → List Nat}
    {call_tool : Json → Json → Except (List Nat) (List Nat)}
    {tools_prompt query : List Nat} {c0 : Json} {calls : List Json} {e : DispatchErr}
    (hex : extract_tool_calls (asciiLower (completion 0)) = .ok (c0 :: calls))
    (hd : (dispatchCalls call_tool (c0 :: calls)).1 = .error e) :
    process_query completion call_tool tools_prompt query =
      { result := .error (.dispatchErr e),
        conversations := [firstConversation tools_prompt query],
        trace := (dispatchCalls call_tool (c0 :: calls)).2 } := by
  simp only [process_query, hex, hd]
  rfl

theorem pq_branch_dispatch_ok {completion : Nat → List Nat}
    {call_tool : Json → Json → Except (List Nat) (List Nat)}
    {tools_prompt query : List Nat} {c0 : Json} {calls : List Json}
    {rs : List (Json × List Nat)}
    (hex : extract_tool_calls (asciiLower (completion 0)) = .ok (c0 :: calls))
    (hd : (dispatchCalls call_tool (c0 :: calls)).1 = .ok rs) :
    process_query completion call_tool tools_prompt query =
      { result := .ok (completion 1),
        conversations := [firstConversation tools_prompt query,
          firstConversation tools_prompt query ++
            [[(pystr "role", pystr "assistant"), (pystr "content", asciiLower (completion 0))],
             [(pystr "role", pystr "user"),
              (pystr "content",
                pyReplace (pystr "\x7bresults\x7d") (jsonDumpsResults rs)
                  (pyReplace (pystr "\x7bquery\x7d") query RESULT_PROMPT))]]],
        trace := (dispatchCalls call_tool (c0 :: calls)).2 } := by
  simp only [process_query, hex, hd]
  rfl

/-- C2 (code bug): the first message of every conversation sent to the
completion endpoint is built with the misspelled key `"rolse"`
(src/main.py line 109): its keys are `rolse` (mapped to `"system"`) and
`content` (mapped to the system prompt), so it has no `role` field at
all, is not a system-role message, and the claimed role-enum invariant
fails on it. -/
theorem C2_system_message_key_misspelled (completion : Nat → List Nat)
    (call_tool : Json → Json → Except (List Nat) (List Nat))
    (tools_prompt query : List Nat) :
    (((process_query completion call_tool tools_prompt query).conversations.getD 0 []).getD 0 [])
      = [(pystr "rolse", pystr "system"), (pystr "content", TOOL_SYS_PROMPT)] ∧
    msgGet [(pystr "rolse", pystr "system"), (pystr "content", TOOL_SYS_PROMPT)]
      (pystr "role") = none ∧
    msgGet [(pystr "rolse", pystr "system"), (pystr "content", TOOL_SYS_PROMPT)]
      (pystr "rolse") = some (pystr "system") ∧
    msgGet [(pystr "rolse", pystr "system"), (pystr "content", TOOL_SYS_PROMPT)]
      (pystr "content") = some TOOL_SYS_PROMPT := by
  refine ⟨?_, by rfl, by rfl, by rfl⟩
  cases hex : extract_tool_calls (asciiLower (completion 0)) with
  | error e =>
    rw [pq_branch_extract_error hex]
    rfl
  | ok calls =>
    cases calls with
    | nil =>
      rw [pq_branch_no_calls hex]
      rfl
    | cons c0 rest =>
      cases hd : (dispatchCalls call_tool (c0 :: rest)).1 with
      | error e =>
        rw [pq_branch_dispatch_error hex hd]
        rfl
      | ok rs =>
        rw [pq_branch_dispatch_ok hex hd]
        rfl

/-- C4: per user query the completion endpoint is invoked at most twice;
whenever a second completion happens, its raw text is the final answer,
returned verbatim and unconditionally — it is never lower-cased, parsed
for fenced blocks, or dispatched; and the tool-invocation trace depends
only on the first completion's response, never on the second. -/
theorem C4_at_most_two_completions (completion : Nat → List Nat)
    (call_tool : Json → Json → Except (List Nat) (List Nat))
    (tools_prompt query : List Nat) :
    (process_query completion call_tool tools_prompt query).conversations.length ≤ 2 ∧
    ((process_query completion call_tool tools_prompt query).conversations.length = 2 →
      (process_query completion call_tool tools_prompt query).result = .ok (completion 1)) ∧
    (∀ completion2 : Nat → List Nat, completion2 0 = completion 0 →
      (process_query completion2 call_tool tools_prompt query).trace =
        (process_query completion call_tool tools_prompt query).trace) := by
  cases hex : extract_tool_calls (asciiLower (completion 0)) with
  | error e =>
    rw [pq_branch_extract_error hex]
    refine ⟨by simp, by simp, ?_⟩
    intro completion2 h0
    have hex2 : extract_tool_calls (asciiLower (completion2 0)) = .error e := by
      rw [h0]
      exact hex
    rw [pq_branch_extract_error hex2]
  | ok calls =>
    cases calls with
    | nil =>
      rw [pq_branch_no_calls hex]
      refine ⟨by simp, by simp, ?_⟩
      intro completion2 h0
      have hex2 : extract_tool_calls (asciiLower (completion2 0)) = .ok [] := by
        rw [h0]
        exact hex
      rw [pq_branch_no_calls hex2]
    | cons c0 rest =>
      cases hd : (dispatchCalls call_tool (c0 :: rest)).1 with
      | error e =>
        rw [pq_branch_dispatch_error hex hd]
        refine ⟨by simp, by simp, ?_⟩
        intro completion2 h0
        have hex2 : extract_tool_calls (asciiLower (completion2 0)) = .ok (c0 :: rest) := by
          rw [h0]
          exact hex
        rw [pq_branch_dispatch_error hex2 hd]
      | ok rs =>
        rw [pq_branch_dispatch_ok hex hd]
        refine ⟨by simp, fun _ => rfl, ?_⟩
        intro completion2 h0
        have hex2 : extract_tool_calls (asciiLower (completion2 0)) = .ok (c0 :: rest) := by
          rw [h0]
          exact hex
        rw [pq_branch_dispatch_ok hex2 hd]

/-- C7: when the lower-cased first response contains no ```json fence
marker, extraction returns the empty sequence without error, no tool is
invoked, no second completion call is made, and the final answer is the
first response's text verbatim modulo the documented lower-casing. -/
theorem C7_no_blocks_direct_answer (completion : Nat → List Nat)
    (call_tool : Json → Json → Except (List Nat) (List Nat))
    (tools_prompt query : List Nat)
    (hnof : ¬ fenceOpen <:+: asciiLower (completion 0)) :
    extract_tool_calls (asciiLower (completion 0)) = .ok [] ∧
    (process_query completion call_tool tools_prompt query).result =
      .ok (asciiLower (completion 0)) ∧
    (process_query completion call_tool tools_prompt query).conversations.length = 1 ∧
    (process_query completion call_tool tools_prompt query).trace = [] := by
  have hfs : findSub fenceOpen (asciiLower (completion 0)) = none :=
    (findSub_eq_none_iff fenceOpen fenceOpen_ne_nil _).mpr hnof
  have hex := extract_none hfs
  rw [pq_branch_no_calls hex]
  exact ⟨hex, rfl, rfl, rfl⟩

/-- C7 witness: a plain greeting without fences is answered directly by
the lower-cased first response. -/
theorem C7_no_blocks_direct_answer_witness :
    (process_query (fun _ => pystr "Hello There!") (fun _ _ => .error [])
        TOOL_PROMPT (pystr "hello")).result = .ok (pystr "hello there!") := by
  have h := C7_no_blocks_direct_answer (fun _ => pystr "Hello There!")
    (fun _ _ => .error []) TOOL_PROMPT (pystr "hello") (by decide)
  rw [h.2.1]
  rfl

/-- C4 witness: a turn that does dispatch a tool call makes exactly two
completion calls, returns the second response verbatim (fence marker and
all, never parsed), and its trace is unchanged if the second response is
replaced by any other text. -/
theorem C4_at_most_two_completions_witness :
    (process_query
      (fun n => if n = 0 then pystr "```json\n\x7b\"tool_name\": \"add\", \"tool_args\": \x7b\x7d\x7d\n```"
        else pystr "Second ```json response")
      (fun _ _ => .ok (pystr "4")) TOOL_PROMPT (pystr "q")).conversations.length ≤ 2 ∧
    (process_query
      (fun n => if n = 0 then pystr "```json\n\x7b\"tool_name\": \"add\", \"tool_args\": \x7b\x7d\x7d\n```"
        else pystr "Second ```json response")
      (fun _ _ => .ok (pystr "4")) TOOL_PROMPT (pystr "q")).result =
        .ok (pystr "Second ```json response") ∧
    (process_query
      (fun n => if n = 0 then pystr "```json\n\x7b\"tool_name\": \"add\", \"tool_args\": \x7b\x7d\x7d\n```"
        else pystr "a different second response")
      (fun _ _ => .ok (pystr "4")) TOOL_PROMPT (pystr "q")).trace =
      (process_query
        (fun n => if n = 0 then pystr "```json\n\x7b\"tool_name\": \"add\", \"tool_args\": \x7b\x7d\x7d\n```"
          else pystr "Second ```json response")
        (fun _ _ => .ok (pystr "4")) TOOL_PROMPT (pystr "q")).trace := by
  have h := C4_at_most_two_completions
    (fun n => if n = 0 then pystr "```json\n\x7b\"tool_name\": \"add\", \"tool_args\": \x7b\x7d\x7d\n```"
      else pystr "Second ```json response")
    (fun _ _ => .ok (pystr "4")) TOOL_PROMPT (pystr "q")
  exact ⟨h.1, h.2.1 (by rfl), h.2.2 _ (by rfl)⟩

theorem tools_placeholder_infix : pystr "\x7btools\x7d" <:+: TOOL_PROMPT := by decide

theorem tools_placeholder_ne_nil : pystr "\x7btools\x7d" ≠ [] := by decide

theorem name_infix_entry (t : ToolDescriptor) :
    t.name <:+: (pystr "tool_name: " ++ t.name ++ pystr "\ndescription: " ++ t.description ++
      pystr "\ninput_schema: " ++ t.inputSchema ++ pystr "\n\n") := by
  refine ⟨pystr "tool_name: ",
    pystr "\ndescription: " ++ t.description ++ pystr "\ninput_schema: " ++ t.inputSchema ++ pystr "\n\n", ?_⟩
  simp only [List.append_assoc]

theorem name_infix_tools_list {tools : List ToolDescriptor} {t : ToolDescriptor}
    (ht : t ∈ tools) : t.name <:+: tools_list_of tools := by
  have hmem : (pystr "tool_name: " ++ t.name ++ pystr "\ndescription: " ++ t.description ++
      pystr "\ninput_schema: " ++ t.inputSchema ++ pystr "\n\n") ∈
      tools.map (fun tool => pystr "tool_name: " ++ tool.name ++ pystr "\ndescription: " ++
        tool.description ++ pystr "\ninput_schema: " ++ tool.inputSchema ++ pystr "\n\n") :=
    List.mem_map_of_mem _ ht
  have hinf := List.infix_of_mem_flatten hmem
  exact (name_infix_entry t).trans hinf

/-- C9 (amended): for every descriptor sequence, including the empty one,
the Prompt Builder succeeds and the tool-catalog prompt it builds
contains every descriptor's name (the empty sequence renders as an empty
catalog, not an error).  The turn-time user-facing prompt additionally
substitutes every occurrence of the `\x7bquery\x7d` placeholder, so it can
lose a name that contains the placeholder (see the counterexample). -/
theorem C9_catalog_contains_every_name (tools : List ToolDescriptor) :
    tools_list_of [] = [] ∧
    ∀ t ∈ tools, t.name <:+: connect_tools_prompt tools := by
  refine ⟨rfl, ?_⟩
  intro t ht
  obtain ⟨a, b, hab⟩ := pyReplace_contains_rep (pystr "\x7btools\x7d") (tools_list_of tools)
    tools_placeholder_ne_nil TOOL_PROMPT tools_placeholder_infix
  rw [connect_tools_prompt, hab]
  exact (name_infix_tools_list ht).trans ⟨a, b, rfl⟩

/-- C9 witness: a one-descriptor catalog whose prompt contains the
descriptor's name. -/
theorem C9_catalog_contains_every_name_witness :
    pystr "add" <:+: connect_tools_prompt
      [⟨pystr "add", pystr "adds two numbers", pystr "schema"⟩] :=
  (C9_catalog_contains_every_name
    [⟨pystr "add", pystr "adds two numbers", pystr "schema"⟩]).2
    ⟨pystr "add", pystr "adds two numbers", pystr "schema"⟩
    (List.mem_singleton.mpr rfl)

set_option maxRecDepth 4000 in
/-- C9 counterexample: a descriptor literally named `\x7bquery\x7d` is in
the sequence, yet the rendered user-facing prompt of the turn does not
contain its name — the query substitution of `process_query` replaced it
(src/main.py line 115). -/
theorem C9_counterexample :
    (⟨pystr "\x7bquery\x7d", pystr "d", pystr "s"⟩ : ToolDescriptor) ∈
      [(⟨pystr "\x7bquery\x7d", pystr "d", pystr "s"⟩ : ToolDescriptor)] ∧
    ¬ (pystr "\x7bquery\x7d" <:+:
        rendered_user_prompt [⟨pystr "\x7bquery\x7d", pystr "d", pystr "s"⟩] (pystr "zzz")) := by
  refine ⟨List.mem_singleton.mpr rfl, ?_⟩
  have h : findSub (pystr "\x7bquery\x7d")
      (rendered_user_prompt [⟨pystr "\x7bquery\x7d", pystr "d", pystr "s"⟩] (pystr "zzz")) = none := by
    rfl
  exact (findSub_eq_none_iff _ (by decide) _).mp h

/-- C10 (amended): the entire first response is lower-cased before
extraction, so the fence label is matched case-insensitively; and for
every response text containing no backslash (hence no JSON escape
sequences in any payload), every string anywhere inside every extracted
tool call — `tool_name`, the keys and string values of `tool_args`,
number lexemes — is free of ASCII uppercase letters.  The backslash
proviso cannot be dropped: a `\uXXXX` escape survives `.lower()` and can
decode to an uppercase character, so a tool registered under an
uppercase name can still be dispatched under its exact name (see the
counterexample). -/
theorem C10_lowercased_extraction {t : List Nat} {calls : List Json}
    (h92 : ∀ c ∈ t, c ≠ 92)
    (hex : extract_tool_calls (asciiLower t) = .ok calls) :
    ∀ v ∈ calls, v.noUpper = true :=
  extract_ok_nice (asciiLower_nice h92) hex

/-- C10 witness: an upper-cased fence label ```JSON is recognised after
lower-casing, and the extracted call is entirely lowercase. -/
theorem C10_lowercased_extraction_witness :
    extract_tool_calls (asciiLower (pystr "A ```JSON\n\x7b\"tool_name\": \"Add\", \"tool_args\": \x7b\x7d\x7d\n``` B")) =
      .ok [Json.obj [(pystr "tool_name", Json.str (pystr "add")),
        (pystr "tool_args", Json.obj [])]] ∧
    Json.noUpper (Json.obj [(pystr "tool_name", Json.str (pystr "add")),
      (pystr "tool_args", Json.obj [])]) = true := by
  refine ⟨by rfl, ?_⟩
  exact @C10_lowercased_extraction
    (pystr "A ```JSON\n\x7b\"tool_name\": \"Add\", \"tool_args\": \x7b\x7d\x7d\n``` B")
    [Json.obj [(pystr "tool_name", Json.str (pystr "add")), (pystr "tool_args", Json.obj [])]]
    (by decide) (by rfl) _ (List.mem_singleton.mpr rfl)

/-- C10 counterexample: the claim as stated — that no extracted string
can contain an uppercase character — is false: this response is already
fully lower-case (lower-casing leaves it unchanged), yet its `\u0041`
escape decodes to `A`, so the extracted `tool_name` is `Add`, and a tool
registered as `Add` would be dispatched under its exact name. -/
theorem C10_counterexample :
    asciiLower (pystr "```json\n\x7b\"tool_name\": \"\\u0041dd\", \"tool_args\": \x7b\x7d\x7d\n```") =
      pystr "```json\n\x7b\"tool_name\": \"\\u0041dd\", \"tool_args\": \x7b\x7d\x7d\n```" ∧
    extract_tool_calls (asciiLower (pystr "```json\n\x7b\"tool_name\": \"\\u0041dd\", \"tool_args\": \x7b\x7d\x7d\n```")) =
      .ok [Json.obj [(pystr "tool_name", Json.str (pystr "Add")),
        (pystr "tool_args", Json.obj [])]] ∧
    Json.noUpper (Json.obj [(pystr "tool_name", Json.str (pystr "Add")),
      (pystr "tool_args", Json.obj [])]) = false := by
  exact ⟨by rfl, by rfl, by rfl⟩
